import Mathlib

/-!
Verification of khatriafaq/fastapi-todo-app.

Two parts are modelled:

1. The CRUD todo router (`app/routers/todos.py`, `app/models.py`): a shallow
   embedding where the database session is a `List Todo`, the authenticated
   user is a `Nat` id, and each handler is a pure function from the store to
   an `Except HTTPError` result together with the updated store.

2. The static model validator described in the specification (the script
   itself ships outside the application package): model records, the three
   validation passes and the CLI exit-status rule, modelled from the spec.
-/

set_option autoImplicit false

namespace TodoApp

/-- An HTTP error as raised by `HTTPException(status_code=..., detail=...)`. -/
structure HTTPError where
  status_code : Nat
  detail : String
deriving DecidableEq

/-- `HTTPException(status_code=404, detail="Todo not found")`. -/
def notFound : HTTPError := ⟨404, "Todo not found"⟩

/-- One row of the `todo` table (`class Todo` in `app/models.py`), as the
Python object seen by the handlers.  Every column is wrapped in `Option`
because `setattr` on the model instance can store Python `None` in any
attribute regardless of its annotation; `created_at`/`updated_at` timestamps
are abstracted to `Nat`. -/
structure Todo where
  id : Option Nat
  title : Option String
  description : Option String
  completed : Option Bool
  owner_id : Option Nat
  created_at : Nat
  updated_at : Nat
deriving DecidableEq

/-- The `TodoUpdate` request schema.  The outer `Option` records whether the
field was present in the request body (pydantic "set"); the inner `Option`
is the field value itself, which may be JSON `null`. -/
structure TodoUpdate where
  title : Option (Option String)
  description : Option (Option String)
  completed : Option (Option Bool)
deriving DecidableEq

/-- The row predicate of
`select(Todo).where(Todo.id == todo_id, Todo.owner_id == current_user.id)`. -/
def ownedBy (todo_id uid : Nat) (t : Todo) : Bool :=
  t.id == some todo_id && t.owner_id == some uid

/-- `session.exec(select(...)).first()`: first matching row, if any. -/
def findUserTodo (db : List Todo) (todo_id uid : Nat) : Option Todo :=
  db.find? (ownedBy todo_id uid)

/-- Replace the first list element satisfying `p` (the session mutates the
fetched row in place). -/
def replaceFirst {α : Type} (p : α → Bool) (a : α) : List α → List α
  | [] => []
  | x :: xs => if p x then a :: xs else x :: replaceFirst p a xs

/-- `GET /todos/`: `list_todos` returns all rows with
`Todo.owner_id == current_user.id`. -/
def list_todos (db : List Todo) (uid : Nat) : List Todo :=
  db.filter (fun t => t.owner_id == some uid)

/-- `GET /todos/{todo_id}`: `get_todo` returns the row or raises 404. -/
def get_todo (db : List Todo) (todo_id uid : Nat) : Except HTTPError Todo :=
  match findUserTodo db todo_id uid with
  | none => .error notFound
  | some t => .ok t

/-- `model_dump(exclude_unset=True)` is non-empty: at least one field was
present in the request body. -/
def anySet (u : TodoUpdate) : Bool :=
  u.title.isSome || u.description.isSome || u.completed.isSome

/-- The mutation performed by `update_todo_patch` on the fetched row:
`setattr` for each field present in `model_dump(exclude_unset=True)`, and
`updated_at = datetime.now(...)` only when that dump is non-empty. -/
def applyPatch (t : Todo) (u : TodoUpdate) (now : Nat) : Todo :=
  if anySet u then
    { t with
      title := match u.title with | some v => v | none => t.title
      description := match u.description with | some v => v | none => t.description
      completed := match u.completed with | some v => v | none => t.completed
      updated_at := now }
  else t

/-- The mutation performed by `update_todo_put`: iterate the full
`model_dump()` (absent fields dump as `None`), `setattr` only values that
are not `None`, then always set `updated_at`. -/
def applyPut (t : Todo) (u : TodoUpdate) (now : Nat) : Todo :=
  { t with
    title := match u.title with | some (some v) => some v | _ => t.title
    description := match u.description with | some (some v) => some v | _ => t.description
    completed := match u.completed with | some (some v) => some v | _ => t.completed
    updated_at := now }

/-- `PATCH /todos/{todo_id}`: returns the response and the updated store. -/
def update_todo_patch (db : List Todo) (todo_id uid : Nat) (u : TodoUpdate)
    (now : Nat) : Except HTTPError Todo × List Todo :=
  match findUserTodo db todo_id uid with
  | none => (.error notFound, db)
  | some t =>
      let t2 := applyPatch t u now
      (.ok t2, replaceFirst (ownedBy todo_id uid) t2 db)

/-- `PUT /todos/{todo_id}`: returns the response and the updated store. -/
def update_todo_put (db : List Todo) (todo_id uid : Nat) (u : TodoUpdate)
    (now : Nat) : Except HTTPError Todo × List Todo :=
  match findUserTodo db todo_id uid with
  | none => (.error notFound, db)
  | some t =>
      let t2 := applyPut t u now
      (.ok t2, replaceFirst (ownedBy todo_id uid) t2 db)

/-- `DELETE /todos/{todo_id}`: returns the response (204 carries no body)
and the updated store; `session.delete` removes the fetched row. -/
def delete_todo (db : List Todo) (todo_id uid : Nat) :
    Except HTTPError Unit × List Todo :=
  match findUserTodo db todo_id uid with
  | none => (.error notFound, db)
  | some _ => (.ok (), db.eraseP (ownedBy todo_id uid))

end TodoApp

namespace Validator

/-- Modelled from the spec: Issue severity, the closed enum
`error | warning`. -/
inductive Severity where
  | error
  | warning
deriving DecidableEq

/-- Modelled from the spec: source location of a declaration — file path
and line number. -/
structure Origin where
  path : String
  line : Nat
deriving DecidableEq

/-- Modelled from the spec: one validation finding. -/
structure Issue where
  severity : Severity
  message : String
  origin : Origin
deriving DecidableEq

/-- Modelled from the spec: `RelationshipRef`, one declared relationship
field — `target` (related model name, `None` if unresolvable) and
`back_populates` (mirror field name on the target, or `None`). -/
structure RelationshipRef where
  target : Option String
  back_populates : Option String
deriving DecidableEq

/-- Modelled from the spec: `ModelRecord`, one per discovered declarative
class.  `foreign_keys` and `relationships` are insertion-ordered mappings
from field name, represented as association lists. -/
structure ModelRecord where
  name : String
  table_name : String
  has_table : Bool
  primary_keys : List String
  foreign_keys : List (String × String)
  relationships : List (String × RelationshipRef)
  origin : Origin
deriving DecidableEq

/-- Modelled from the spec: the primary-key `error` Issue
`"Table model '<name>' has no primary key"`. -/
def pkIssue (m : ModelRecord) : Issue :=
  { severity := .error
    message := "Table model \x27" ++ m.name ++ "\x27 has no primary key"
    origin := m.origin }

/-- Modelled from the spec: primary-key pass — one error per model with
`has_table = true` and empty `primary_keys`; the validator script is not in
the application package, so the pass is reconstructed from §4.2 of the
spec. -/
def checkPrimaryKeys (models : List ModelRecord) : List Issue :=
  (models.filter (fun m => m.has_table && m.primary_keys.isEmpty)).map pkIssue

/-- Modelled from the spec: the known-table-name set
`\x7b r.table_name : r in all ModelRecords where r.has_table \x7d`,
materialized once over the complete mapping. -/
def knownTables (models : List ModelRecord) : List String :=
  (models.filter (fun m => m.has_table)).map (fun m => m.table_name)

/-- Modelled from the spec: split a foreign-key reference on its first `.`
and return the referenced table name; references without a `.` yield
`none`. -/
def refTable (ref : String) : Option String :=
  if ref.data.contains '.' then
    some (String.mk (ref.data.takeWhile (fun c => c ≠ '.')))
  else none

/-- Modelled from the spec: the foreign-key `warning` Issue
`"Foreign key '<field>' references unknown table '<ref_table>'"`. -/
def fkIssue (field tbl : String) (origin : Origin) : Issue :=
  { severity := .warning
    message := "Foreign key \x27" ++ field ++ "\x27 references unknown table \x27"
      ++ tbl ++ "\x27"
    origin := origin }

/-- Modelled from the spec: the check of one `(field, ref)` foreign-key
entry against the known-table set: skip if `ref` has no `.`, warn if the
referenced table is unknown. -/
def fkEntryIssue (known : List String) (origin : Origin)
    (entry : String × String) : Option Issue :=
  match refTable entry.2 with
  | none => none
  | some tbl => if known.contains tbl then none else some (fkIssue entry.1 tbl origin)

/-- Modelled from the spec: foreign-key pass — the known set is computed
once from the full mapping, then every entry of every model is checked. -/
def checkForeignKeys (models : List ModelRecord) : List Issue :=
  models.flatMap (fun m => m.foreign_keys.filterMap (fkEntryIssue (knownTables models) m.origin))

/-- Modelled from the spec: the relationship-asymmetry `error` Issue
`"Relationship '<field>' has back_populates='<bp>' but no matching
relationship found in '<target>'"`. -/
def relIssue (field bp tgt : String) (origin : Origin) : Issue :=
  { severity := .error
    message := "Relationship \x27" ++ field ++ "\x27 has back_populates=\x27" ++ bp
      ++ "\x27 but no matching relationship found in \x27" ++ tgt ++ "\x27"
    origin := origin }

/-- Modelled from the spec: does `tm` declare a relationship whose
`back_populates` equals the original field name and whose `target` equals
the original model's name? -/
def hasBackRef (tm : ModelRecord) (field srcName : String) : Bool :=
  tm.relationships.any (fun e =>
    e.2.back_populates == some field && e.2.target == some srcName)

/-- Modelled from the spec: the check of one relationship entry of model
`srcName`: only entries with both `target` and `back_populates` set are
examined; an unresolvable target is skipped; a resolvable target without a
matching back-reference yields an error. -/
def relEntryIssue (models : List ModelRecord) (srcName : String) (origin : Origin)
    (entry : String × RelationshipRef) : Option Issue :=
  match entry.2.target, entry.2.back_populates with
  | some tgt, some bp =>
      match models.find? (fun x => x.name == tgt) with
      | none => none
      | some tm =>
          if hasBackRef tm entry.1 srcName then none
          else some (relIssue entry.1 bp tgt origin)
  | _, _ => none

/-- Modelled from the spec: relationship-symmetry pass over the full
mapping. -/
def checkRelationships (models : List ModelRecord) : List Issue :=
  models.flatMap (fun m => m.relationships.filterMap (relEntryIssue models m.name m.origin))

/-- Modelled from the spec: the validator — three independent passes, each
iterating the full model set once, concatenated without short-circuiting. -/
def validate (models : List ModelRecord) : List Issue :=
  checkPrimaryKeys models ++ checkForeignKeys models ++ checkRelationships models

/-- Modelled from the spec: does an issue list contain at least one
`error`? -/
def hasErrors (issues : List Issue) : Bool :=
  issues.any (fun i => i.severity == .error)

/-- Modelled from the spec: CLI invocation outcome — `none` is a missing
path argument, `some none` a nonexistent path, `some (some issues)` a
completed run with its issue list. -/
def cliExitCode : Option (Option (List Issue)) → Nat
  | none => 1
  | some none => 1
  | some (some issues) => if hasErrors issues then 1 else 0

/-- Modelled from the spec: the statically-resolvable shapes of a value in
the analyzed source — a string literal, a boolean literal, or anything
else (`nonLiteral`). -/
inductive PyLit where
  | str (s : String)
  | boolean (b : Bool)
  | nonLiteral
deriving DecidableEq

/-- Modelled from the spec: the part of a declarative class declaration the
extractor reads for `table_name` and `has_table` — the class name, the
keyword-style `table` argument if present, and the attribute assignments of
the class body in declaration order. -/
structure ClassDecl where
  name : String
  tableArg : Option PyLit
  bodyAssigns : List (String × PyLit)
deriving DecidableEq

/-- Modelled from the spec: the string-literal values assigned to
`__tablename__` in the class body, in order; non-literal assignments are
dropped. -/
def tablenameLit (e : String × PyLit) : Option String :=
  if e.1 == "__tablename__" then
    match e.2 with
    | .str s => some s
    | _ => none
  else none

/-- Modelled from the spec: all string-literal `__tablename__` values of a
class body, in declaration order. -/
def tablenameLits (c : ClassDecl) : List String :=
  c.bodyAssigns.filterMap tablenameLit

/-- Modelled from the spec: per-character lowercasing (`name.lower()` on
ASCII class names). -/
def lowercase (s : String) : String :=
  String.mk (s.data.map Char.toLower)

/-- Modelled from the spec: `table_name` defaults to the lowercased class
name and is overridden by a literal-string assignment to `__tablename__`
(the extractor walks the body in order, so the last literal wins);
non-literal overrides are ignored. -/
def extractTableName (c : ClassDecl) : String :=
  match (tablenameLits c).getLast? with
  | some s => s
  | none => lowercase c.name

/-- Modelled from the spec: `has_table` is true iff the declaration carries
a keyword argument `table` whose literal value is boolean true. -/
def extractHasTable (c : ClassDecl) : Bool :=
  c.tableArg == some (.boolean true)

end Validator

namespace TodoApp

theorem ownedBy_eq_true_iff (todo_id uid : Nat) (t : Todo) :
    ownedBy todo_id uid t = true ↔ t.id = some todo_id ∧ t.owner_id = some uid := by
  simp [ownedBy]

theorem findUserTodo_eq_none_iff (db : List Todo) (todo_id uid : Nat) :
    findUserTodo db todo_id uid = none ↔
      ∀ t ∈ db, ¬(t.id = some todo_id ∧ t.owner_id = some uid) := by
  simp [findUserTodo, List.find?_eq_none, ownedBy]

theorem replaceFirst_find? {α : Type} (p : α → Bool) (l : List α) (a : α)
    (h : l.find? p = some a) : replaceFirst p a l = l := by
  induction l with
  | nil => simp at h
  | cons x xs ih =>
      by_cases hp : p x
      · rw [List.find?_cons_of_pos _ hp, Option.some.injEq] at h
        subst h
        simp [replaceFirst, hp]
      · rw [List.find?_cons_of_neg _ hp] at h
        simp [replaceFirst, hp, ih h]

/-- C8: each single-todo handler raises 404 `"Todo not found"` iff no stored
todo has the requested id and the current user as owner (so a todo owned by
someone else is reported as not found); in that case the store is
unchanged; and `list_todos` returns exactly the todos owned by the current
user. -/
theorem handlers_owner_scoped (db : List Todo) (todo_id uid : Nat)
    (u : TodoUpdate) (now : Nat) :
    (get_todo db todo_id uid = .error notFound ↔
      ∀ t ∈ db, ¬(t.id = some todo_id ∧ t.owner_id = some uid)) ∧
    ((update_todo_patch db todo_id uid u now).1 = .error notFound ↔
      ∀ t ∈ db, ¬(t.id = some todo_id ∧ t.owner_id = some uid)) ∧
    ((update_todo_put db todo_id uid u now).1 = .error notFound ↔
      ∀ t ∈ db, ¬(t.id = some todo_id ∧ t.owner_id = some uid)) ∧
    ((delete_todo db todo_id uid).1 = .error notFound ↔
      ∀ t ∈ db, ¬(t.id = some todo_id ∧ t.owner_id = some uid)) ∧
    (findUserTodo db todo_id uid = none →
      (update_todo_patch db todo_id uid u now).2 = db ∧
      (update_todo_put db todo_id uid u now).2 = db ∧
      (delete_todo db todo_id uid).2 = db) ∧
    (∀ t ∈ list_todos db uid, t.owner_id = some uid) := by
  have hiff := findUserTodo_eq_none_iff db todo_id uid
  refine ⟨?_, ?_, ?_, ?_, ?_, ?_⟩
  · rw [← hiff]
    cases h : findUserTodo db todo_id uid <;> simp [get_todo, h]
  · rw [← hiff]
    cases h : findUserTodo db todo_id uid <;> simp [update_todo_patch, h]
  · rw [← hiff]
    cases h : findUserTodo db todo_id uid <;> simp [update_todo_put, h]
  · rw [← hiff]
    cases h : findUserTodo db todo_id uid <;> simp [delete_todo, h]
  · intro h
    simp [update_todo_patch, update_todo_put, delete_todo, h]
  · intro t ht
    have := (List.mem_filter.mp ht).2
    simpa using this

/-- C9: on an owned todo, PUT returns the todo transformed by `applyPut`,
which leaves every field whose dumped body value is `None` unchanged (so a
PUT can never reset `description` to `None`) and always stamps
`updated_at` with the current time. -/
theorem put_keeps_none_valued_fields (db : List Todo) (todo_id uid : Nat)
    (u : TodoUpdate) (now : Nat) (t : Todo)
    (h : findUserTodo db todo_id uid = some t) :
    (update_todo_put db todo_id uid u now).1 = .ok (applyPut t u now) ∧
    (u.title.join = none → (applyPut t u now).title = t.title) ∧
    (u.description.join = none → (applyPut t u now).description = t.description) ∧
    (u.completed.join = none → (applyPut t u now).completed = t.completed) ∧
    ((applyPut t u now).description = none → t.description = none) ∧
    (applyPut t u now).updated_at = now := by
  refine ⟨by simp [update_todo_put, h], ?_, ?_, ?_, ?_, rfl⟩
  · intro hj
    cases hu : u.title with
    | none => simp [applyPut, hu]
    | some v =>
        cases v with
        | none => simp [applyPut, hu]
        | some s => rw [hu] at hj; simp [Option.join] at hj
  · intro hj
    cases hu : u.description with
    | none => simp [applyPut, hu]
    | some v =>
        cases v with
        | none => simp [applyPut, hu]
        | some s => rw [hu] at hj; simp [Option.join] at hj
  · intro hj
    cases hu : u.completed with
    | none => simp [applyPut, hu]
    | some v =>
        cases v with
        | none => simp [applyPut, hu]
        | some s => rw [hu] at hj; simp [Option.join] at hj
  · intro hd
    cases hu : u.description with
    | none => simpa [applyPut, hu] using hd
    | some v =>
        cases v with
        | none => simpa [applyPut, hu] using hd
        | some s => simp [applyPut, hu] at hd

/-- C9 witness: at a concrete store and body, PUT keeps the `None`-valued
description and stamps `updated_at`. -/
theorem put_keeps_none_valued_fields_witness :
    (applyPut ⟨some 1, some "a", some "d", some false, some 7, 0, 0⟩
        ⟨some (some "b"), none, none⟩ 5).description = some "d" ∧
    (applyPut ⟨some 1, some "a", some "d", some false, some 7, 0, 0⟩
        ⟨some (some "b"), none, none⟩ 5).updated_at = 5 := by
  have h := put_keeps_none_valued_fields
    [⟨some 1, some "a", some "d", some false, some 7, 0, 0⟩] 1 7
    ⟨some (some "b"), none, none⟩ 5
    ⟨some 1, some "a", some "d", some false, some 7, 0, 0⟩ (by decide)
  exact ⟨h.2.2.1 rfl, h.2.2.2.2.2⟩

/-- C10: on an owned todo, PATCH returns the todo transformed by
`applyPatch`; with a body in which no field was set the todo is returned
unchanged (including `updated_at`) and the store is unchanged;
`updated_at` is stamped iff at least one field was present; and a field
explicitly set to `null` is applied. -/
theorem patch_frame (db : List Todo) (todo_id uid : Nat)
    (u : TodoUpdate) (now : Nat) (t : Todo)
    (h : findUserTodo db todo_id uid = some t) :
    (update_todo_patch db todo_id uid u now).1 = .ok (applyPatch t u now) ∧
    (anySet u = false → applyPatch t u now = t ∧
      (update_todo_patch db todo_id uid u now).2 = db) ∧
    ((applyPatch t u now).updated_at = if anySet u then now else t.updated_at) ∧
    (u.title = some none → (applyPatch t u now).title = none) ∧
    (u.description = some none → (applyPatch t u now).description = none) ∧
    (u.completed = some none → (applyPatch t u now).completed = none) := by
  refine ⟨by simp [update_todo_patch, h], ?_, ?_, ?_, ?_, ?_⟩
  · intro hs
    have ht : applyPatch t u now = t := by simp [applyPatch, hs]
    refine ⟨ht, ?_⟩
    simp [update_todo_patch, h, ht]
    exact replaceFirst_find? _ _ _ h
  · by_cases hs : anySet u <;> simp [applyPatch, hs]
  · intro hT
    have hs : anySet u = true := by simp [anySet, hT]
    simp [applyPatch, hs, hT]
  · intro hD
    have hs : anySet u = true := by simp [anySet, hD]
    simp [applyPatch, hs, hD]
  · intro hC
    have hs : anySet u = true := by simp [anySet, hC]
    simp [applyPatch, hs, hC]

/-- C10 witness: at a concrete store, an all-unset PATCH body returns the
todo unchanged and leaves the store unchanged. -/
theorem patch_frame_witness :
    applyPatch ⟨some 1, some "a", some "d", some false, some 7, 0, 3⟩
        ⟨none, none, none⟩ 5 =
      ⟨some 1, some "a", some "d", some false, some 7, 0, 3⟩ ∧
    (update_todo_patch [⟨some 1, some "a", some "d", some false, some 7, 0, 3⟩]
        1 7 ⟨none, none, none⟩ 5).2 =
      [⟨some 1, some "a", some "d", some false, some 7, 0, 3⟩] := by
  have h := patch_frame
    [⟨some 1, some "a", some "d", some false, some 7, 0, 3⟩] 1 7
    ⟨none, none, none⟩ 5
    ⟨some 1, some "a", some "d", some false, some 7, 0, 3⟩ (by decide)
  exact h.2.1 rfl

end TodoApp

namespace Validator

theorem string_append_inj_mid (p s a b : String) (h : p ++ a ++ s = p ++ b ++ s) :
    a = b := by
  have hd : p.data ++ (a.data ++ s.data) = p.data ++ (b.data ++ s.data) := by
    have h2 := congrArg String.data h
    simpa [List.append_assoc] using h2
  exact String.ext (List.append_cancel_right (List.append_cancel_left hd))

theorem pkIssue_name_inj {a b : ModelRecord} (h : pkIssue a = pkIssue b) :
    a.name = b.name := by
  have hm := congrArg Issue.message h
  simp only [pkIssue] at hm
  exact string_append_inj_mid _ _ _ _ hm

theorem pkIssue_not_mem (xs : List ModelRecord) (m : ModelRecord)
    (hx : m.name ∉ xs.map ModelRecord.name) : pkIssue m ∉ checkPrimaryKeys xs := by
  intro hmem
  simp only [checkPrimaryKeys, List.mem_map, List.mem_filter] at hmem
  obtain ⟨y, ⟨hy, _⟩, heq⟩ := hmem
  exact hx (List.mem_map.mpr ⟨y, hy, pkIssue_name_inj heq⟩)

theorem count_pkIssue (models : List ModelRecord)
    (hnd : (models.map ModelRecord.name).Nodup)
    (m : ModelRecord) (hm : m ∈ models) :
    (checkPrimaryKeys models).count (pkIssue m) =
      if m.has_table && m.primary_keys.isEmpty then 1 else 0 := by
  induction models with
  | nil => simp at hm
  | cons x xs ih =>
      rw [List.map_cons] at hnd
      have hnd2 := List.nodup_cons.mp hnd
      rcases List.mem_cons.mp hm with hmx | hmxs
      · subst hmx
        have h0 : (checkPrimaryKeys xs).count (pkIssue m) = 0 :=
          List.count_eq_zero.mpr (pkIssue_not_mem xs m hnd2.1)
        by_cases hc : (m.has_table && m.primary_keys.isEmpty) = true
        · have hstep : checkPrimaryKeys (m :: xs) = pkIssue m :: checkPrimaryKeys xs := by
            simp [checkPrimaryKeys, List.filter_cons, hc]
          rw [hstep, List.count_cons_self, h0, if_pos hc]
        · have hcf : (m.has_table && m.primary_keys.isEmpty) = false := by
            simpa using hc
          have hstep : checkPrimaryKeys (m :: xs) = checkPrimaryKeys xs := by
            simp [checkPrimaryKeys, List.filter_cons, hcf]
          rw [hstep, h0, if_neg hc]
      · have hxm : x.name ≠ m.name := by
          intro hEq
          apply hnd2.1
          rw [hEq]
          exact List.mem_map.mpr ⟨m, hmxs, rfl⟩
        have hne : pkIssue m ≠ pkIssue x := fun hEq => hxm (pkIssue_name_inj hEq).symm
        have hrec := ih hnd2.2 hmxs
        by_cases hc : (x.has_table && x.primary_keys.isEmpty) = true
        · have hstep : checkPrimaryKeys (x :: xs) = pkIssue x :: checkPrimaryKeys xs := by
            simp [checkPrimaryKeys, List.filter_cons, hc]
          rw [hstep, List.count_cons_of_ne hne]
          exact hrec
        · have hcf : (x.has_table && x.primary_keys.isEmpty) = false := by
            simpa using hc
          have hstep : checkPrimaryKeys (x :: xs) = checkPrimaryKeys xs := by
            simp [checkPrimaryKeys, List.filter_cons, hcf]
          rw [hstep]
          exact hrec

/-- C1: in the primary-key pass, a model with `has_table = true` yields
exactly one `error` issue `"Table model '<name>' has no primary key"` iff
its `primary_keys` is empty, and a model with `has_table = false` yields no
issue at all. -/
theorem pk_rule (models : List ModelRecord)
    (hnd : (models.map ModelRecord.name).Nodup)
    (m : ModelRecord) (hm : m ∈ models) :
    ((checkPrimaryKeys models).count (pkIssue m) =
      if m.has_table && m.primary_keys.isEmpty then 1 else 0) ∧
    (m.has_table = true →
      ((checkPrimaryKeys models).count (pkIssue m) = 1 ↔ m.primary_keys = [])) ∧
    (m.has_table = false → pkIssue m ∉ checkPrimaryKeys models) ∧
    (pkIssue m).severity = Severity.error := by
  have hcount := count_pkIssue models hnd m hm
  refine ⟨hcount, ?_, ?_, rfl⟩
  · intro hT
    rw [hcount]
    by_cases hE : m.primary_keys = [] <;> simp [hT, hE, List.isEmpty_iff]
  · intro hF hmem
    have h0 : (checkPrimaryKeys models).count (pkIssue m) = 0 := by
      rw [hcount]; simp [hF]
    rw [List.count_eq_zero] at h0
    exact h0 hmem

/-- C1 witness: a concrete table model without primary keys yields exactly
one issue, and adding a primary key or dropping `has_table` yields none. -/
theorem pk_rule_witness :
    (checkPrimaryKeys [⟨"User", "user", true, [], [], [], ⟨"m.py", 1⟩⟩]).count
      (pkIssue ⟨"User", "user", true, [], [], [], ⟨"m.py", 1⟩⟩) = 1 :=
  ((pk_rule [⟨"User", "user", true, [], [], [], ⟨"m.py", 1⟩⟩] (by decide)
      ⟨"User", "user", true, [], [], [], ⟨"m.py", 1⟩⟩ (by decide)).2.1 rfl).mpr rfl

/-- C2: a `(field, ref)` foreign-key entry of a model produces the warning
`"Foreign key '<field>' references unknown table '<ref_table>'"` iff `ref`
contains a `.` and the table left of the first `.` is not in the known-table
set computed once from the complete mapping; references without a `.`
produce no issue; every produced issue appears in the pass output. -/
theorem fk_rule (models : List ModelRecord) (m : ModelRecord) (hm : m ∈ models)
    (field ref : String) (he : (field, ref) ∈ m.foreign_keys) :
    (∀ i, fkEntryIssue (knownTables models) m.origin (field, ref) = some i →
      i ∈ checkForeignKeys models) ∧
    ((fkEntryIssue (knownTables models) m.origin (field, ref)).isSome ↔
      ∃ tbl, refTable ref = some tbl ∧ (knownTables models).contains tbl = false) ∧
    (ref.data.contains '.' = false →
      fkEntryIssue (knownTables models) m.origin (field, ref) = none) ∧
    ((refTable ref).isSome = ref.data.contains '.') ∧
    (∀ tbl, refTable ref = some tbl → (knownTables models).contains tbl = false →
      fkEntryIssue (knownTables models) m.origin (field, ref) =
        some (fkIssue field tbl m.origin) ∧
      (fkIssue field tbl m.origin).severity = Severity.warning) ∧
    knownTables models =
      (models.filter (fun r => r.has_table)).map (fun r => r.table_name) := by
  refine ⟨?_, ?_, ?_, ?_, ?_, rfl⟩
  · intro i hi
    simp only [checkForeignKeys, List.mem_flatMap]
    exact ⟨m, hm, List.mem_filterMap.mpr ⟨(field, ref), he, hi⟩⟩
  · cases ht : refTable ref with
    | none => simp [fkEntryIssue, ht]
    | some tbl =>
        by_cases hk : (knownTables models).contains tbl <;>
          simp [fkEntryIssue, ht, hk]
  · intro hnd
    have hmem : '.' ∉ ref.data := by simpa using hnd
    have : refTable ref = none := by simp [refTable, hmem]
    simp [fkEntryIssue, this]
  · by_cases hd : '.' ∈ ref.data <;> simp [refTable, hd]
  · intro tbl ht hk
    have hk2 : tbl ∉ knownTables models := by simpa using hk
    simp [fkEntryIssue, ht, hk2, fkIssue]

/-- C2 witness: `foreign_key="ghost.id"` on a model while no table is named
`ghost` produces the warning, and a dotless reference produces nothing. -/
theorem fk_rule_witness :
    fkEntryIssue
      (knownTables [⟨"User", "user", true, ["id"],
        [("gid", "ghost.id"), ("x", "nodot")], [], ⟨"m.py", 1⟩⟩])
      (⟨"m.py", 1⟩ : Origin) ("gid", "ghost.id") =
      some (fkIssue "gid" "ghost" ⟨"m.py", 1⟩) ∧
    fkEntryIssue
      (knownTables [⟨"User", "user", true, ["id"],
        [("gid", "ghost.id"), ("x", "nodot")], [], ⟨"m.py", 1⟩⟩])
      (⟨"m.py", 1⟩ : Origin) ("x", "nodot") = none := by
  have h := fk_rule
    [⟨"User", "user", true, ["id"],
      [("gid", "ghost.id"), ("x", "nodot")], [], ⟨"m.py", 1⟩⟩]
    ⟨"User", "user", true, ["id"],
      [("gid", "ghost.id"), ("x", "nodot")], [], ⟨"m.py", 1⟩⟩
    (by decide) "gid" "ghost.id" (by decide)
  have h2 := fk_rule
    [⟨"User", "user", true, ["id"],
      [("gid", "ghost.id"), ("x", "nodot")], [], ⟨"m.py", 1⟩⟩]
    ⟨"User", "user", true, ["id"],
      [("gid", "ghost.id"), ("x", "nodot")], [], ⟨"m.py", 1⟩⟩
    (by decide) "x" "nodot" (by decide)
  exact ⟨(h.2.2.2.2.1 "ghost" (by decide) (by decide)).1, h2.2.2.1 (by decide)⟩

theorem hasBackRef_iff (tm : ModelRecord) (f srcName : String) :
    hasBackRef tm f srcName = true ↔
      ∃ e ∈ tm.relationships,
        e.2.back_populates = some f ∧ e.2.target = some srcName := by
  simp [hasBackRef, List.any_eq_true]

/-- C3: a relationship entry of model `m` with both `target` and
`back_populates` set produces the asymmetry error iff the target model is
found in the mapping and has no relationship whose `back_populates` equals
the field name and whose `target` equals `m`'s name; an unresolvable
target, or an unset `target` or `back_populates`, produces nothing; every
produced issue appears in the pass output. -/
theorem rel_rule (models : List ModelRecord) (m : ModelRecord) (hm : m ∈ models)
    (f : String) (r : RelationshipRef) (he : (f, r) ∈ m.relationships) :
    (∀ i, relEntryIssue models m.name m.origin (f, r) = some i →
      i ∈ checkRelationships models) ∧
    (∀ tgt bp, r.target = some tgt → r.back_populates = some bp →
      ((relEntryIssue models m.name m.origin (f, r)).isSome ↔
        ∃ tm, models.find? (fun x => x.name == tgt) = some tm ∧
          hasBackRef tm f m.name = false)) ∧
    (∀ tgt, r.target = some tgt → models.find? (fun x => x.name == tgt) = none →
      relEntryIssue models m.name m.origin (f, r) = none) ∧
    (r.target = none → relEntryIssue models m.name m.origin (f, r) = none) ∧
    (r.back_populates = none → relEntryIssue models m.name m.origin (f, r) = none) ∧
    (∀ tgt bp tm, r.target = some tgt → r.back_populates = some bp →
      models.find? (fun x => x.name == tgt) = some tm →
      hasBackRef tm f m.name = false →
      relEntryIssue models m.name m.origin (f, r) =
        some (relIssue f bp tgt m.origin) ∧
      (relIssue f bp tgt m.origin).severity = Severity.error) := by
  refine ⟨?_, ?_, ?_, ?_, ?_, ?_⟩
  · intro i hi
    simp only [checkRelationships, List.mem_flatMap]
    exact ⟨m, hm, List.mem_filterMap.mpr ⟨(f, r), he, hi⟩⟩
  · intro tgt bp htgt hbp
    cases hf : models.find? (fun x => x.name == tgt) with
    | none => simp [relEntryIssue, htgt, hbp, hf]
    | some tm =>
        by_cases hb : hasBackRef tm f m.name <;>
          simp [relEntryIssue, htgt, hbp, hf, hb]
  · intro tgt htgt hf
    cases hbp : r.back_populates with
    | none => simp [relEntryIssue, htgt, hbp]
    | some bp => simp [relEntryIssue, htgt, hbp, hf]
  · intro htgt
    simp [relEntryIssue, htgt]
  · intro hbp
    cases htgt : r.target with
    | none => simp [relEntryIssue, htgt]
    | some tgt => simp [relEntryIssue, htgt, hbp]
  · intro tgt bp tm htgt hbp hf hb
    simp [relEntryIssue, htgt, hbp, hf, hb, relIssue]

/-- C3 witness: a resolvable target without a matching back-reference
produces the error, and a model whose relationship target is absent from
the mapping produces nothing. -/
theorem rel_rule_witness :
    relEntryIssue
      [⟨"User", "user", true, ["id"], [],
        [("todos", ⟨some "Todo", some "owner"⟩)], ⟨"m.py", 1⟩⟩,
       ⟨"Todo", "todo", true, ["id"], [],
        [("owner", ⟨some "User", some "items"⟩)], ⟨"m.py", 9⟩⟩]
      "User" ⟨"m.py", 1⟩ ("todos", ⟨some "Todo", some "owner"⟩) =
      some (relIssue "todos" "owner" "Todo" ⟨"m.py", 1⟩) ∧
    relEntryIssue
      [⟨"User", "user", true, ["id"], [],
        [("todos", ⟨some "Todo", some "owner"⟩)], ⟨"m.py", 1⟩⟩]
      "User" ⟨"m.py", 1⟩ ("todos", ⟨some "Todo", some "owner"⟩) = none := by
  have h := rel_rule
    [⟨"User", "user", true, ["id"], [],
      [("todos", ⟨some "Todo", some "owner"⟩)], ⟨"m.py", 1⟩⟩,
     ⟨"Todo", "todo", true, ["id"], [],
      [("owner", ⟨some "User", some "items"⟩)], ⟨"m.py", 9⟩⟩]
    ⟨"User", "user", true, ["id"], [],
      [("todos", ⟨some "Todo", some "owner"⟩)], ⟨"m.py", 1⟩⟩
    (by decide) "todos" ⟨some "Todo", some "owner"⟩ (by decide)
  have h2 := rel_rule
    [⟨"User", "user", true, ["id"], [],
      [("todos", ⟨some "Todo", some "owner"⟩)], ⟨"m.py", 1⟩⟩]
    ⟨"User", "user", true, ["id"], [],
      [("todos", ⟨some "Todo", some "owner"⟩)], ⟨"m.py", 1⟩⟩
    (by decide) "todos" ⟨some "Todo", some "owner"⟩ (by decide)
  refine ⟨?_, ?_⟩
  · exact (h.2.2.2.2.2 "Todo" "owner"
      ⟨"Todo", "todo", true, ["id"], [],
        [("owner", ⟨some "User", some "items"⟩)], ⟨"m.py", 9⟩⟩
      rfl rfl (by decide) (by decide)).1
  · exact h2.2.2.1 "Todo" rfl (by decide)

theorem find?_name_swap (A B : ModelRecord) (rest : List ModelRecord)
    (hAB : A.name ≠ B.name) (t : String) :
    (A :: B :: rest).find? (fun x => x.name == t) =
      (B :: A :: rest).find? (fun x => x.name == t) := by
  by_cases hA : A.name = t
  · have hB : ¬ B.name = t := fun h => hAB (hA.trans h.symm)
    have bA : (A.name == t) = true := beq_iff_eq.mpr hA
    have bB : (B.name == t) = false := beq_eq_false_iff_ne.mpr hB
    simp [List.find?_cons, bA, bB]
  · have bA : (A.name == t) = false := beq_eq_false_iff_ne.mpr hA
    by_cases hB : B.name = t
    · have bB : (B.name == t) = true := beq_iff_eq.mpr hB
      simp [List.find?_cons, bA, bB]
    · have bB : (B.name == t) = false := beq_eq_false_iff_ne.mpr hB
      simp [List.find?_cons, bA, bB]

theorem relEntryIssue_swap (A B : ModelRecord) (rest : List ModelRecord)
    (hAB : A.name ≠ B.name) (s : String) (o : Origin)
    (e : String × RelationshipRef) :
    relEntryIssue (A :: B :: rest) s o e = relEntryIssue (B :: A :: rest) s o e := by
  cases ht : e.2.target with
  | none => simp [relEntryIssue, ht]
  | some tgt =>
      cases hb : e.2.back_populates with
      | none => simp [relEntryIssue, ht, hb]
      | some bp =>
          simp only [relEntryIssue, ht, hb]
          rw [find?_name_swap A B rest hAB tgt]

theorem checkRelationships_swap (A B : ModelRecord) (rest : List ModelRecord)
    (hAB : A.name ≠ B.name) :
    (checkRelationships (A :: B :: rest)).Perm (checkRelationships (B :: A :: rest)) := by
  have hF : (fun m : ModelRecord =>
        m.relationships.filterMap (relEntryIssue (B :: A :: rest) m.name m.origin)) =
      (fun m : ModelRecord =>
        m.relationships.filterMap (relEntryIssue (A :: B :: rest) m.name m.origin)) := by
    funext m
    congr 1
    funext e
    exact (relEntryIssue_swap A B rest hAB m.name m.origin e).symm
  simp only [checkRelationships]
  rw [hF]
  rw [List.flatMap_cons, List.flatMap_cons, List.flatMap_cons, List.flatMap_cons]
  rw [← List.append_assoc, ← List.append_assoc]
  exact List.perm_append_comm.append_right _

/-- C4: a clean bidirectional relationship pair — `A.f` targeting `B` with
`back_populates = g` and `B.g` targeting `A` with `back_populates = f` —
yields no issue on either side, and swapping which of the two models comes
first in the mapping permutes (keeps the same set of) the
relationship-symmetry pass output. -/
theorem rel_symmetry (A B : ModelRecord) (rest : List ModelRecord)
    (hnd : ((A :: B :: rest).map ModelRecord.name).Nodup)
    (f g : String)
    (hA : (f, RelationshipRef.mk (some B.name) (some g)) ∈ A.relationships)
    (hB : (g, RelationshipRef.mk (some A.name) (some f)) ∈ B.relationships) :
    relEntryIssue (A :: B :: rest) A.name A.origin
      (f, RelationshipRef.mk (some B.name) (some g)) = none ∧
    relEntryIssue (A :: B :: rest) B.name B.origin
      (g, RelationshipRef.mk (some A.name) (some f)) = none ∧
    (checkRelationships (A :: B :: rest)).Perm (checkRelationships (B :: A :: rest)) := by
  have hAB : A.name ≠ B.name := by
    rw [List.map_cons, List.map_cons] at hnd
    have hhead := (List.nodup_cons.mp hnd).1
    intro hEq
    exact hhead (by rw [hEq]; exact List.mem_cons_self _ _)
  have hfindB : (A :: B :: rest).find? (fun x => x.name == B.name) = some B := by
    have bA : (A.name == B.name) = false := beq_eq_false_iff_ne.mpr hAB
    simp [List.find?_cons, bA]
  have hfindA : (A :: B :: rest).find? (fun x => x.name == A.name) = some A := by
    simp [List.find?_cons]
  have hbrB : hasBackRef B f A.name = true := by
    rw [hasBackRef_iff]
    exact ⟨(g, RelationshipRef.mk (some A.name) (some f)), hB, rfl, rfl⟩
  have hbrA : hasBackRef A g B.name = true := by
    rw [hasBackRef_iff]
    exact ⟨(f, RelationshipRef.mk (some B.name) (some g)), hA, rfl, rfl⟩
  refine ⟨?_, ?_, checkRelationships_swap A B rest hAB⟩
  · simp [relEntryIssue, hfindB, hbrB]
  · simp [relEntryIssue, hfindA, hbrA]

/-- C4 witness: the spec scenario — `User.todos` / `Todo.owner` with
mirrored `back_populates` — yields no issue for the `User.todos` side. -/
theorem rel_symmetry_witness :
    relEntryIssue
      [⟨"User", "user", true, ["id"], [],
        [("todos", ⟨some "Todo", some "owner"⟩)], ⟨"m.py", 1⟩⟩,
       ⟨"Todo", "todo", true, ["id"], [],
        [("owner", ⟨some "User", some "todos"⟩)], ⟨"m.py", 9⟩⟩]
      "User" ⟨"m.py", 1⟩ ("todos", ⟨some "Todo", some "owner"⟩) = none := by
  have h := rel_symmetry
    ⟨"User", "user", true, ["id"], [],
      [("todos", ⟨some "Todo", some "owner"⟩)], ⟨"m.py", 1⟩⟩
    ⟨"Todo", "todo", true, ["id"], [],
      [("owner", ⟨some "User", some "todos"⟩)], ⟨"m.py", 9⟩⟩
    [] (by decide) "todos" "owner" (by decide) (by decide)
  exact h.1

/-- C5: validation is a total function whose output is exactly the
concatenation of the three independent passes, so every pass contributes
its full issue list to the result no matter what the other passes
produced — no short-circuiting. -/
theorem validate_pipeline (models : List ModelRecord) :
    validate models =
      checkPrimaryKeys models ++ checkForeignKeys models ++ checkRelationships models ∧
    (checkPrimaryKeys models).Sublist (validate models) ∧
    (checkForeignKeys models).Sublist (validate models) ∧
    (checkRelationships models).Sublist (validate models) := by
  refine ⟨rfl, ?_, ?_, ?_⟩
  · exact (List.sublist_append_left _ _).trans (List.sublist_append_left _ _)
  · exact (List.sublist_append_right _ _).trans (List.sublist_append_left _ _)
  · exact List.sublist_append_right _ _

theorem hasErrors_eq_true_iff (issues : List Issue) :
    hasErrors issues = true ↔ ∃ i ∈ issues, i.severity = Severity.error := by
  simp [hasErrors, List.any_eq_true]

/-- C6: the exit status is 0 iff a path argument was given, the path
exists, and the run produced no `error`-severity issue (warnings alone exit
0); it is 1 in every other case — errors found, missing path, or missing
argument. -/
theorem cli_exit_codes (inp : Option (Option (List Issue))) :
    (cliExitCode inp = 0 ↔
      ∃ issues, inp = some (some issues) ∧
        ∀ i ∈ issues, i.severity ≠ Severity.error) ∧
    (cliExitCode inp = 0 ∨ cliExitCode inp = 1) ∧
    (inp = none → cliExitCode inp = 1) ∧
    (inp = some none → cliExitCode inp = 1) ∧
    (∀ issues, inp = some (some issues) → hasErrors issues = true →
      cliExitCode inp = 1) ∧
    (∀ issues, inp = some (some issues) →
      (∀ i ∈ issues, i.severity = Severity.warning) → cliExitCode inp = 0) := by
  rcases inp with _ | inner
  · refine ⟨?_, ?_, ?_, ?_, ?_, ?_⟩ <;> simp [cliExitCode]
  · rcases inner with _ | issues
    · refine ⟨?_, ?_, ?_, ?_, ?_, ?_⟩ <;> simp [cliExitCode]
    · by_cases hE : hasErrors issues = true
      · obtain ⟨i, hi, hsev⟩ := (hasErrors_eq_true_iff issues).mp hE
        refine ⟨?_, ?_, ?_, ?_, ?_, ?_⟩
        · simp only [cliExitCode, hE, if_true]
          constructor
          · intro h; exact absurd h (by norm_num)
          · rintro ⟨is2, heq, hall⟩
            obtain rfl : is2 = issues := by
              injection heq with h1
              injection h1 with h2
              exact h2.symm
            exact absurd hsev (hall i hi)
        · simp [cliExitCode, hE]
        · simp
        · simp
        · intro is2 _ _
          simp [cliExitCode, hE]
        · intro is2 heq hwarn
          obtain rfl : is2 = issues := by
            injection heq with h1
            injection h1 with h2
            exact h2.symm
          have := hwarn i hi
          rw [this] at hsev
          cases hsev
      · have hEf : hasErrors issues = false := by simpa using hE
        have hall : ∀ i ∈ issues, i.severity ≠ Severity.error := by
          intro i hi hsev
          exact hE ((hasErrors_eq_true_iff issues).mpr ⟨i, hi, hsev⟩)
        refine ⟨?_, ?_, ?_, ?_, ?_, ?_⟩
        · simp only [cliExitCode, hEf, Bool.false_eq_true, if_false]
          exact iff_of_true trivial ⟨issues, rfl, hall⟩
        · simp [cliExitCode, hEf]
        · simp
        · simp
        · intro is2 heq hcontra
          obtain rfl : is2 = issues := by
            injection heq with h1
            injection h1 with h2
            exact h2.symm
          rw [hcontra] at hEf
          cases hEf
        · intro is2 _ _
          simp [cliExitCode, hEf]

/-- C7: an extracted class's `table_name` is the lowercased class name when
the body carries no literal-string `__tablename__` assignment (non-literal
assignments are ignored), and is the assigned literal string when one is
present. -/
theorem tablename_extraction (c : ClassDecl) :
    ((∀ v, ("__tablename__", v) ∈ c.bodyAssigns → ∀ s, v ≠ PyLit.str s) →
      extractTableName c = lowercase c.name) ∧
    (∀ s l₁ l₂, c.bodyAssigns = l₁ ++ ("__tablename__", PyLit.str s) :: l₂ →
      (∀ v, ("__tablename__", v) ∈ l₂ → ∀ s₂, v ≠ PyLit.str s₂) →
      extractTableName c = s) := by
  constructor
  · intro hno
    have hnil : tablenameLits c = [] := by
      rw [tablenameLits, List.filterMap_eq_nil_iff]
      intro e he
      obtain ⟨n, v⟩ := e
      by_cases h1 : n = "__tablename__"
      · subst h1
        cases v with
        | str s => exact absurd rfl (hno (PyLit.str s) he s)
        | boolean b => simp [tablenameLit]
        | nonLiteral => simp [tablenameLit]
      · simp [tablenameLit, h1]
    simp [extractTableName, hnil]
  · intro s l₁ l₂ hsplit hno2
    have htail : l₂.filterMap tablenameLit = [] := by
      rw [List.filterMap_eq_nil_iff]
      intro e he
      obtain ⟨n, v⟩ := e
      by_cases h1 : n = "__tablename__"
      · subst h1
        cases v with
        | str s2 => exact absurd rfl (hno2 (PyLit.str s2) he s2)
        | boolean b => simp [tablenameLit]
        | nonLiteral => simp [tablenameLit]
      · simp [tablenameLit, h1]
    have hlits : tablenameLits c = l₁.filterMap tablenameLit ++ [s] := by
      rw [tablenameLits, hsplit, List.filterMap_append, List.filterMap_cons]
      simp [tablenameLit, htail]
    simp [extractTableName, hlits, List.getLast?_concat]

end Validator
